import Mathlib

/-!
Shallow embedding of the tamper-evident audit-log core of the HackOdisha
repository (`log_api/api`): the hash-chain engine (`security.py`), the log
store (`models.py`), the WebSocket distribution hub (`websocket.py`) and the
blockchain anchor client (`blockchain_storage.py`).

External stdlib / environment effects are passed in explicitly:
* `hmacF : String → String` stands for
  `hmac.new(settings.JWT_SECRET_KEY, ·, hashlib.sha256).hexdigest()` — an
  arbitrary deterministic function of the message string;
* Python `datetime` values are represented by their ISO-8601 string
  (`DateTime.isoformat` is the identity); `fromisoformat` models the subset
  of `datetime.fromisoformat` covering strings produced by
  `datetime.now(timezone.utc).isoformat()`;
* Redis is modelled as an explicit state record, and each Redis command used
  by `LogEntry.save` is one `SaveEffect` applied in program order;
* a WebSocket `send_text` outcome is an oracle `sendOk : Conn → Bool`;
* the ethereum node is modelled by the fetched previous-hash string, the
  account transaction count, and an `Option` submission result (`none` when
  `build_transaction` / `sign_transaction` / `send_raw_transaction` raises).
-/

namespace LogApi

/-! ## Python datetime model -/

/-- A `datetime` value, represented by its canonical ISO-8601 rendering. -/
abbrev DateTime := String

/-- `datetime.isoformat()` — identity on the canonical representation. -/
def DateTime.isoformat (t : DateTime) : DateTime := t

/-- `str.replace("Z", "+00:00")` as used by `verify_log_integrity`. -/
def replaceZ (s : String) : String :=
  String.mk (s.toList.foldr
    (fun c acc => if c = 'Z' then '+' :: '0' :: '0' :: ':' :: '0' :: '0' :: acc else c :: acc)
    [])

/-- Shape check for the ISO strings produced by
`datetime.now(timezone.utc).isoformat()`: `YYYY-MM-DDTHH:MM:SS+HH:MM`,
optionally with a 6-digit fractional-seconds part. -/
def isIsoUtc (s : String) : Bool :=
  match s.toList with
  | [y1,y2,y3,y4,'-',m1,m2,'-',d1,d2,'T',h1,h2,':',n1,n2,':',s1,s2,'+',z1,z2,':',z3,z4] =>
      [y1,y2,y3,y4,m1,m2,d1,d2,h1,h2,n1,n2,s1,s2,z1,z2,z3,z4].all Char.isDigit
  | [y1,y2,y3,y4,'-',m1,m2,'-',d1,d2,'T',h1,h2,':',n1,n2,':',s1,s2,'.',
     f1,f2,f3,f4,f5,f6,'+',z1,z2,':',z3,z4] =>
      [y1,y2,y3,y4,m1,m2,d1,d2,h1,h2,n1,n2,s1,s2,f1,f2,f3,f4,f5,f6,z1,z2,z3,z4].all Char.isDigit
  | _ => false

/-- `datetime.fromisoformat`, partial: `none` models the `ValueError` raised
on a malformed string. On the canonical strings it accepts it is the
identity (Python round-trips `isoformat`-produced strings exactly). -/
def fromisoformat (s : String) : Option DateTime :=
  if isIsoUtc s then some s else none

/-! ## Hash-chain engine — `security.py` -/

/-- The `|`-joined string `f"\x7buser_id}|\x7bquery}|\x7bstatus}|\x7btimestamp.isoformat()}"`
hashed by `generate_log_hash` (the `isoformat` call is applied by the caller
of this helper). -/
def logData (user_id query status iso : String) : String :=
  user_id ++ "|" ++ query ++ "|" ++ status ++ "|" ++ iso

/-- `generate_log_hash(user_id, query, status, timestamp)`. -/
def generate_log_hash (hmacF : String → String)
    (user_id query status : String) (timestamp : DateTime) : String :=
  hmacF (logData user_id query status (DateTime.isoformat timestamp))

/-- `verify_log_hash`: recompute and compare (`hmac.compare_digest` is
string equality, timing aside). -/
def verify_log_hash (hmacF : String → String)
    (user_id query status : String) (timestamp : DateTime) (provided_hash : String) : Bool :=
  generate_log_hash hmacF user_id query status timestamp == provided_hash

/-- `generate_verification_token(log_id, hash_value)`. -/
def generate_verification_token (hmacF : String → String)
    (log_id hash_value : String) : String :=
  hmacF (log_id ++ "|" ++ hash_value)

/-- The dict stored for a log entry / passed to `verify_log_integrity`.
`none` models an absent key (`dict.get` returning `None`). -/
structure LogDict where
  id : Option String
  user_id : Option String
  query : Option String
  status : Option String
  timestamp : Option String
  hash : Option String
deriving DecidableEq

/-- Python truthiness of `dict.get(k)` for string values: `None` and `""`
are falsy (this is the `all([...])` test in `verify_log_integrity`). -/
def pyTruthy : Option String → Bool
  | none => false
  | some s => s != ""

/-- The structured result dict of `verify_log_integrity`; a key absent from
the returned dict is `none`. -/
structure VerifyResult where
  valid : Bool
  verification_token : Option String
  error : Option String
deriving DecidableEq

/-- `verify_log_integrity(log_data)`: the outer `try/except` makes the
timestamp-parse failure return a structured error instead of raising. -/
def verify_log_integrity (hmacF : String → String) (log_data : LogDict) : VerifyResult :=
  if pyTruthy log_data.user_id && pyTruthy log_data.query && pyTruthy log_data.status
      && pyTruthy log_data.timestamp && pyTruthy log_data.hash then
    match fromisoformat (replaceZ (log_data.timestamp.getD "")) with
    | none =>
        { valid := false, verification_token := none,
          error := some ("Verification error: Invalid isoformat string: "
                          ++ log_data.timestamp.getD "") }
    | some timestamp =>
        let is_valid := verify_log_hash hmacF (log_data.user_id.getD "")
          (log_data.query.getD "") (log_data.status.getD "") timestamp
          (log_data.hash.getD "")
        { valid := is_valid,
          verification_token :=
            if is_valid then
              some (generate_verification_token hmacF (log_data.id.getD "")
                      (log_data.hash.getD ""))
            else none,
          error :=
            if is_valid then none
            else some "Hash verification failed - log may have been tampered with" }
  else
    { valid := false, verification_token := none,
      error := some "Missing required fields for verification" }

/-! ## Log store — `models.py` -/

/-- `LogEntry` object fields. -/
structure LogEntry where
  id : String
  user_id : String
  query : String
  status : String
  timestamp : DateTime
  hash : String
deriving DecidableEq

/-- `LogEntry.__init__`: `log_id` models the fresh `uuid4` string, `now`
models `datetime.now(timezone.utc)`. -/
def LogEntry.init (hmacF : String → String)
    (user_id query status log_id : String) (now : DateTime) : LogEntry :=
  { id := log_id, user_id := user_id, query := query, status := status,
    timestamp := now,
    hash := generate_log_hash hmacF user_id query status now }

/-- `LogEntry.to_dict`. -/
def LogEntry.to_dict (e : LogEntry) : LogDict :=
  { id := some e.id, user_id := some e.user_id, query := some e.query,
    status := some e.status, timestamp := some (DateTime.isoformat e.timestamp),
    hash := some e.hash }

/-- `LogEntry.from_dict`: `none` models the `KeyError` on a missing key or
the `ValueError` from `datetime.fromisoformat` (no `Z` replacement here). -/
def LogEntry.from_dict (d : LogDict) : Option LogEntry :=
  match d.id, d.user_id, d.query, d.status, d.timestamp, d.hash with
  | some i, some u, some q, some s, some ts, some h =>
      (fromisoformat ts).map fun t =>
        { id := i, user_id := u, query := q, status := s, timestamp := t, hash := h }
  | _, _, _, _, _, _ => none

/-- Association-list lookup (first match), modelling a keyed namespace. -/
def assocGet {α : Type} : List (String × α) → String → Option α
  | [], _ => none
  | (k', v) :: rest, k => if k' == k then some v else assocGet rest k

/-- Lookup with default. -/
def assocGetD {α : Type} (l : List (String × α)) (k : String) (d : α) : α :=
  (assocGet l k).getD d

/-- Keyed update: overwrite the binding of `k`, or append a new one. -/
def assocSet {α : Type} (l : List (String × α)) (k : String) (v : α) : List (String × α) :=
  match l with
  | [] => [(k, v)]
  | (k', v') :: rest => if k' == k then (k, v) :: rest else (k', v') :: assocSet rest k v

/-- The Redis keyspace used by the log store. `store` models the
`log:\x7bid}` hashes, `user_logs` the `user_logs:\x7buser_id}` lists (head =
most recently pushed), `all_logs` the `all_logs` list, and `published` the
messages published on the `log_updates` channel, in publish order. -/
structure RedisState where
  store : List (String × LogDict)
  user_logs : List (String × List String)
  all_logs : List String
  published : List LogDict
deriving DecidableEq

def emptyRedis : RedisState := ⟨[], [], [], []⟩

/-- One Redis command issued by `LogEntry.save`, in program order. -/
inductive SaveEffect where
  | hset (id : String) (d : LogDict)
  | lpushUser (u : String) (id : String)
  | lpushAll (id : String)
  | publish (d : LogDict)
  | ltrimUser (u : String)
  | ltrimAll
deriving DecidableEq

/-- Execute one Redis command. `LTRIM` on a missing key is a no-op. -/
def applyEffect (st : RedisState) : SaveEffect → RedisState
  | .hset i d => { st with store := assocSet st.store i d }
  | .lpushUser u i =>
      { st with user_logs := assocSet st.user_logs u (i :: assocGetD st.user_logs u []) }
  | .lpushAll i => { st with all_logs := i :: st.all_logs }
  | .publish d => { st with published := st.published ++ [d] }
  | .ltrimUser u =>
      match assocGet st.user_logs u with
      | none => st
      | some l => { st with user_logs := assocSet st.user_logs u (l.take 1000) }
  | .ltrimAll => { st with all_logs := st.all_logs.take 1000 }

/-- The commands of `LogEntry.save`, in source order: store the hash,
`LPUSH` onto the per-user index, `LPUSH` onto the global index, publish on
`log_updates`, then `LTRIM` both indexes to the most recent 1000. -/
def saveEffects (e : LogEntry) : List SaveEffect :=
  [ .hset e.id e.to_dict, .lpushUser e.user_id e.id, .lpushAll e.id,
    .publish e.to_dict, .ltrimUser e.user_id, .ltrimAll ]

/-- `LogEntry.save`. -/
def LogEntry.save (e : LogEntry) (st : RedisState) : RedisState :=
  (saveEffects e).foldl applyEffect st

/-- `LogEntry.get_by_id`: `HGETALL` then `from_dict` (empty hash → `None`). -/
def LogEntry.get_by_id (st : RedisState) (log_id : String) : Option LogEntry :=
  (assocGet st.store log_id).bind LogEntry.from_dict

/-- Redis `LRANGE` with its inclusive, negative-wrapping index semantics
(when the normalised start exceeds the normalised stop, the count
`e - s + 1` is non-positive, so the result is empty). -/
def lrange (l : List String) (start stop : Int) : List String :=
  let n : Int := l.length
  let norm : Int → Int := fun i => if i < 0 then n + i else i
  let s := max (norm start) 0
  let e := min (norm stop) (n - 1)
  (l.drop s.toNat).take (e - s + 1).toNat

/-- `LogEntry.get_logs(user_id, limit, offset)`:
`LRANGE key offset (offset+limit-1)` then resolve each id, skipping ids
whose record is gone. -/
def LogEntry.get_logs (st : RedisState) (user_id : Option String)
    (limit offset : Int) : List LogEntry :=
  let key_ids := match user_id with
    | some u => assocGetD st.user_logs u []
    | none => st.all_logs
  (lrange key_ids offset (offset + limit - 1)).filterMap (LogEntry.get_by_id st)

/-- Entries saved so far (oldest first), starting from an empty store. -/
def saveAll (es : List LogEntry) : RedisState :=
  es.foldl (fun st e => e.save st) emptyRedis

/-- The ids of the entries of one subject, in append order (oldest first). -/
def idsForUser (u : String) (es : List LogEntry) : List String :=
  (es.filter (fun e => e.user_id == u)).map (fun e => e.id)

/-! ## Distribution hub — `websocket.py` -/

/-- A WebSocket transport handle. -/
abbrev Conn := Nat

/-- `ConnectionManager`: the all-connections list and the per-subject map. -/
structure ConnectionManager where
  active_connections : List Conn
  user_connections : List (String × List Conn)
deriving DecidableEq

def emptyManager : ConnectionManager := ⟨[], []⟩

/-- `ConnectionManager.connect(websocket, user_id)`. -/
def ConnectionManager.connect (m : ConnectionManager) (websocket : Conn)
    (user_id : Option String) : ConnectionManager :=
  let m1 := { m with active_connections := m.active_connections ++ [websocket] }
  match user_id with
  | none => m1
  | some u =>
      { m1 with user_connections :=
          assocSet m1.user_connections u (assocGetD m1.user_connections u [] ++ [websocket]) }

/-- Delete a key from a dict. -/
def assocDel {α : Type} (l : List (String × α)) (k : String) : List (String × α) :=
  l.filter (fun p => p.1 != k)

/-- `ConnectionManager.disconnect(websocket, user_id)`: remove from the
all-connections list, and from the per-subject map (dropping the key once
its list is empty). -/
def ConnectionManager.disconnect (m : ConnectionManager) (websocket : Conn)
    (user_id : Option String) : ConnectionManager :=
  let m1 := { m with active_connections := m.active_connections.erase websocket }
  match user_id with
  | none => m1
  | some u =>
      match assocGet m1.user_connections u with
      | none => m1
      | some conns =>
          let conns' := conns.erase websocket
          if conns'.isEmpty then
            { m1 with user_connections := assocDel m1.user_connections u }
          else
            { m1 with user_connections := assocSet m1.user_connections u conns' }

/-- The `for connection in self.active_connections.copy()` loop of
`ConnectionManager.broadcast`: `sendOk c = false` models `send_text`
raising, upon which the connection is removed from `active_connections`
(guarded, so absence is a no-op — `List.erase`). Returns the mutated
manager and the connections whose send succeeded, in iteration order. -/
def broadcastLoop (sendOk : Conn → Bool) :
    List Conn → ConnectionManager → ConnectionManager × List Conn
  | [], m => (m, [])
  | connection :: rest, m =>
      if sendOk connection then
        let r := broadcastLoop sendOk rest m
        (r.1, connection :: r.2)
      else
        broadcastLoop sendOk rest
          { m with active_connections := m.active_connections.erase connection }

/-- `ConnectionManager.broadcast(message)`. The message is sent verbatim to
every connection the loop visits; its content never influences the
recipients. -/
def ConnectionManager.broadcast {α : Type} (m : ConnectionManager) (_message : α)
    (sendOk : Conn → Bool) : ConnectionManager × List Conn :=
  broadcastLoop sendOk m.active_connections m

/-- One `log_updates` message handled by `redis_listener`: it calls
`manager.broadcast` on the published entry. -/
def redisListenerStep (m : ConnectionManager) (data : LogDict)
    (sendOk : Conn → Bool) : ConnectionManager × List Conn :=
  m.broadcast data sendOk

/-! ## Blockchain anchor client — `blockchain_storage.py` -/

/-- The `_last_hash` cell guarded by `_last_hash_lock`. -/
structure AnchorState where
  last_hash : Option String
deriving DecidableEq

/-- The `_current_nonce` cell guarded by `_nonce_lock`. -/
structure NonceState where
  current_nonce : Option Nat
deriving DecidableEq

/-- `BlockchainStorage.get_next_nonce`: `txCount` is what
`w3.eth.get_transaction_count(account.address)` returns at this call. The
source overwrites `_current_nonce` with the fetched count, returns it, and
stores the increment. -/
def get_next_nonce (_st : NonceState) (txCount : Nat) : NonceState × Nat :=
  ({ current_nonce := some (txCount + 1) }, txCount)

/-- `BlockchainStorage.store_log_hash(current_hash)` under `_last_hash_lock`:
`fetched` is what `get_last_blockchain_hash()` would return for the lazy
initialisation (that helper catches its own errors and returns `"0x0"`);
`submitResult` is `some txHashHex` when build/sign/`send_raw_transaction`
all succeed and `none` when any of them raises, in which case the
`except` branch returns `None` without reaching the
`self._last_hash = current_hash` assignment. -/
def store_log_hash (st : AnchorState) (fetched : String)
    (submitResult : Option String) (current_hash : String) :
    AnchorState × Option String :=
  let prev := st.last_hash.getD fetched
  match submitResult with
  | none => ({ last_hash := some prev }, none)
  | some tx => ({ last_hash := some current_hash }, some tx)

/-! ## Concrete instances used by witnesses and counterexamples -/

/-- A concrete stand-in for the keyed HMAC (any deterministic, injective
enough, never-empty function exercises the code paths). -/
def hmacFc : String → String := fun s => "k" ++ s

/-- A concrete `datetime.now(timezone.utc).isoformat()` output. -/
def isoT0 : DateTime := "2024-01-02T03:04:05+00:00"

/-- A manager holding one live subscriber, connection `0`, registered with
subject filter `"S"`. -/
def mgrS : ConnectionManager := emptyManager.connect 0 (some "S")

/-- An entry of subject `"T"`. -/
def entryT : LogEntry :=
  { id := "e1", user_id := "T", query := "q", status := "ok",
    timestamp := isoT0, hash := "h" }

/-- Two live subscribers, connection `0` under subject `"u"` and connection
`1` under subject `"v"`. -/
def mgr2 : ConnectionManager :=
  (emptyManager.connect 0 (some "u")).connect 1 (some "v")

/-- A concrete entry with non-empty fields. -/
def entryA : LogEntry := LogEntry.init hmacFc "alice" "SELECT 1" "SUCCESS" "id7" isoT0

/-- The consistency a reader of the indexes relies on: every id reachable
through the per-user indexes or the global index resolves to a stored,
parseable record. -/
def indexedImpliesStored (st : RedisState) : Prop :=
  (∀ u i, i ∈ assocGetD st.user_logs u [] → (LogEntry.get_by_id st i).isSome = true) ∧
  (∀ i, i ∈ st.all_logs → (LogEntry.get_by_id st i).isSome = true)

/-! ## Theorems -/

/-- Helper: the successful recipients of a broadcast loop are exactly the
iterated connections whose send succeeded, whatever the manager state. -/
theorem broadcastLoop_delivered (sendOk : Conn → Bool) (cs : List Conn)
    (m : ConnectionManager) :
    (broadcastLoop sendOk cs m).2 = cs.filter sendOk := by
  induction cs generalizing m with
  | nil => rfl
  | cons c rest ih =>
      by_cases h : sendOk c <;> simp [broadcastLoop, h, List.filter_cons, ih]

/-- C1 (counterexample): the hub holds one subscriber registered with
subject filter `"S"`, yet when `redis_listener` handles the published entry
of subject `"T"` the broadcast delivers it to that subscriber. -/
theorem live_push_crosses_subject_filter :
    (redisListenerStep mgrS entryT.to_dict (fun _ => true)).2 = [0] ∧
    assocGetD mgrS.user_connections "S" [] = [0] ∧
    entryT.user_id ≠ "S" := by
  refine ⟨rfl, rfl, by decide⟩

/-- C1 (amended): `redis_listener` hands every published entry to
`ConnectionManager.broadcast`, which delivers it to every connection in the
all-connections list whose send succeeds — irrespective of any subject
filter recorded in `user_connections`; the filter only scopes the initial
snapshot (and the unused `broadcast_to_user`). -/
theorem broadcast_ignores_subject_filter (m : ConnectionManager)
    (data : LogDict) (sendOk : Conn → Bool) :
    (redisListenerStep m data sendOk).2 = m.active_connections.filter sendOk :=
  broadcastLoop_delivered sendOk m.active_connections m

/-- C2 (code evaluated at the failing input): with the account's external
transaction count stuck at 5 (e.g. after a failed or not-yet-counted
submission), two successive `get_next_nonce` calls both return 5 — the
incremented `_current_nonce` (6) is overwritten by the re-fetch, so the
nonce is reused instead of strictly increasing. -/
theorem nonce_allocator_repeats_on_unchanged_count :
    (get_next_nonce { current_nonce := none } 5).2 = 5 ∧
    (get_next_nonce { current_nonce := none } 5).1.current_nonce = some 6 ∧
    (get_next_nonce (get_next_nonce { current_nonce := none } 5).1 5).2 = 5 := by
  refine ⟨rfl, rfl, rfl⟩

/-- C5: a failed submission (`submitResult = none`, i.e. an exception while
building, signing or sending the transaction) leaves `_last_hash` at the
previous successful anchor, and `_last_hash` becomes the submitted digest
only when `send_raw_transaction` returned without error (or the digest
coincided with the previous anchor). -/
theorem anchor_updated_only_after_send (st : AnchorState)
    (fetched current : String) (sr : Option String) :
    (∀ h, st.last_hash = some h → sr = none →
        (store_log_hash st fetched sr current).1.last_hash = some h) ∧
    (sr = none → (store_log_hash st fetched sr current).2 = none) ∧
    ((store_log_hash st fetched sr current).2.isSome →
        (store_log_hash st fetched sr current).1.last_hash = some current) ∧
    ((store_log_hash st fetched sr current).1.last_hash = some current →
        sr.isSome = true ∨ st.last_hash = some current ∨
          (st.last_hash = none ∧ fetched = current)) := by
  cases sr with
  | none =>
      refine ⟨?_, ?_, ?_, ?_⟩
      · intro h hh _
        simp [store_log_hash, hh]
      · intro _
        rfl
      · intro hcontra
        simp [store_log_hash] at hcontra
      · intro hcur
        cases hlh : st.last_hash with
        | none =>
            right; right
            simpa [store_log_hash, hlh] using hcur
        | some h =>
            right; left
            simpa [store_log_hash, hlh] using hcur
  | some tx =>
      refine ⟨?_, ?_, ?_, ?_⟩
      · intro h _ hcontra
        cases hcontra
      · intro hcontra
        cases hcontra
      · intro _
        rfl
      · intro _
        exact Or.inl rfl

/-- C6: for every input dict, `verify_log_integrity` returns a structured
result (the surrounding `try/except` turns the timestamp parse error into a
result, so it never raises), in which the verification token is present
exactly when `valid` is true and `error` is absent exactly when `valid` is
true. -/
theorem verify_result_shape (hmacF : String → String) (d : LogDict) :
    ((verify_log_integrity hmacF d).verification_token.isSome
        = (verify_log_integrity hmacF d).valid) ∧
    (((verify_log_integrity hmacF d).error = none)
        ↔ ((verify_log_integrity hmacF d).valid = true)) := by
  unfold verify_log_integrity
  split
  · split
    · simp
    · set b := verify_log_hash hmacF (d.user_id.getD "") (d.query.getD "")
        (d.status.getD "") _ (d.hash.getD "") with hb
      cases hbv : b <;> simp
  · simp

/-- C9: the digest hashes only the `|`-joined concatenation of the four
fields, so shifting content across the separator between `user_id` and
`query` leaves the digest unchanged: two distinct `(user_id, query)` pairs
carry the same digest. -/
theorem digest_collision_across_field_boundary (hmacF : String → String)
    (a b c s : String) (t : DateTime) :
    generate_log_hash hmacF (a ++ "|" ++ b) c s t
      = generate_log_hash hmacF a (b ++ "|" ++ c) s t := by
  unfold generate_log_hash logData
  congr 1
  simp [String.append_assoc]

/-- C10: an empty-string value in any of the five required fields is falsy
for the `all([...])` guard, so `verify_log_integrity` reports the
missing-fields error — even if the stored digest is the correct digest of
exactly those field values. -/
theorem verify_empty_field_reports_missing (hmacF : String → String)
    (d : LogDict)
    (h : d.user_id = some "" ∨ d.query = some "" ∨ d.status = some "" ∨
         d.timestamp = some "" ∨ d.hash = some "") :
    verify_log_integrity hmacF d =
      { valid := false, verification_token := none,
        error := some "Missing required fields for verification" } := by
  unfold verify_log_integrity
  rcases h with h | h | h | h | h <;> rw [h] <;> simp [pyTruthy]

/-- Helper: the broadcast loop never touches the per-subject map. -/
theorem broadcastLoop_user_connections (sendOk : Conn → Bool) (cs : List Conn)
    (m : ConnectionManager) :
    (broadcastLoop sendOk cs m).1.user_connections = m.user_connections := by
  induction cs generalizing m with
  | nil => rfl
  | cons c rest ih =>
      by_cases h : sendOk c <;> simp [broadcastLoop, h, ih]

/-- Helper: after iterating over the copied connection list, the live
all-connections list keeps exactly the connections whose send succeeded
(the already-processed part `pre` stays in front). -/
theorem broadcastLoop_active (sendOk : Conn → Bool) (cs : List Conn) :
    ∀ (pre : List Conn) (m : ConnectionManager),
    m.active_connections = pre ++ cs → (pre ++ cs).Nodup →
    (broadcastLoop sendOk cs m).1.active_connections = pre ++ cs.filter sendOk := by
  induction cs with
  | nil =>
      intro pre m hact _
      simpa [broadcastLoop] using hact
  | cons c rest ih =>
      intro pre m hact hnd
      have hcpre : c ∉ pre := by
        have hdisj := (List.nodup_append.mp hnd).2.2
        intro hc
        exact hdisj hc (List.mem_cons_self c rest)
      by_cases h : sendOk c
      · have hact' : m.active_connections = (pre ++ [c]) ++ rest := by
          simpa [List.append_assoc] using hact
        have hnd' : ((pre ++ [c]) ++ rest).Nodup := by
          simpa [List.append_assoc] using hnd
        have := ih (pre ++ [c]) m hact' hnd'
        simpa [broadcastLoop, h, List.filter_cons, List.append_assoc] using this
      · have herase : m.active_connections.erase c = pre ++ rest := by
          rw [hact, List.erase_append_right _ hcpre, List.erase_cons_head]
        have hsub : (pre ++ rest).Sublist (pre ++ c :: rest) :=
          (List.sublist_cons_self c rest).append_left pre
        have hnd' : (pre ++ rest).Nodup := hnd.sublist hsub
        have := ih pre { m with active_connections := m.active_connections.erase c }
          herase hnd'
        simpa [broadcastLoop, h, List.filter_cons] using this

/-- C3 (amended): when a send fails during a broadcast, the connection is
removed from the all-connections list only — the per-subject map is left
untouched, so the two indexes can disagree until `disconnect` runs — while
every other connection whose send succeeds still receives the message. -/
theorem broadcast_send_failure_removes_active_only (m : ConnectionManager)
    (data : LogDict) (sendOk : Conn → Bool)
    (hnd : m.active_connections.Nodup) :
    ((m.broadcast data sendOk).1.active_connections
        = m.active_connections.filter sendOk) ∧
    ((m.broadcast data sendOk).1.user_connections = m.user_connections) ∧
    ((m.broadcast data sendOk).2 = m.active_connections.filter sendOk) := by
  refine ⟨?_, ?_, ?_⟩
  · exact broadcastLoop_active sendOk m.active_connections [] m rfl (by simpa using hnd)
  · exact broadcastLoop_user_connections sendOk m.active_connections m
  · exact broadcastLoop_delivered sendOk m.active_connections m

/-- C3 witness: in `mgr2`, connection `0`'s send fails and connection `1`'s
succeeds; `0` disappears from the all-connections list, the per-subject map
is unchanged, and `1` still receives the message. -/
theorem broadcast_send_failure_removes_active_only_witness :
    ((mgr2.broadcast entryT.to_dict (fun c => c == 1)).1.active_connections
        = mgr2.active_connections.filter (fun c => c == 1)) ∧
    ((mgr2.broadcast entryT.to_dict (fun c => c == 1)).1.user_connections
        = mgr2.user_connections) ∧
    ((mgr2.broadcast entryT.to_dict (fun c => c == 1)).2
        = mgr2.active_connections.filter (fun c => c == 1)) :=
  broadcast_send_failure_removes_active_only mgr2 entryT.to_dict _ (by decide)

/-- C3 (counterexample): subscriber `0` is registered under subject `"S"`;
its send fails during the broadcast, it is removed from the all-connections
list, yet it remains in the per-subject map — the claim's "removed from
both indexes, and the indexes agree" is false. -/
theorem send_failure_leaves_user_index_stale :
    ((mgrS.broadcast entryT.to_dict (fun _ => false)).1.active_connections = []) ∧
    (assocGetD (mgrS.broadcast entryT.to_dict (fun _ => false)).1.user_connections
        "S" [] = [0]) := by
  refine ⟨rfl, rfl⟩

/-- C4 (amended): appending an entry whose `user_id`, `query` and `status`
are non-empty (and whose HMAC digest is non-empty, as a hex digest always
is) stores its dict under its id, and verifying that stored dict
immediately afterwards succeeds. `ht` is the Python round-trip fact that
`fromisoformat` returns `now.isoformat()` unchanged. -/
theorem verify_valid_after_append (hmacF : String → String)
    (u q s i : String) (t : DateTime)
    (hu : u ≠ "") (hq : q ≠ "") (hs : s ≠ "")
    (ht : fromisoformat (replaceZ t) = some t)
    (hh : generate_log_hash hmacF u q s t ≠ "") :
    (assocGet ((LogEntry.init hmacF u q s i t).save emptyRedis).store i
        = some (LogEntry.init hmacF u q s i t).to_dict) ∧
    ((verify_log_integrity hmacF (LogEntry.init hmacF u q s i t).to_dict).valid
        = true) ∧
    ((verify_log_integrity hmacF (LogEntry.init hmacF u q s i t).to_dict).error
        = none) := by
  have htne : t ≠ "" := by
    intro h0
    rw [h0] at ht
    exact absurd ht (by decide)
  refine ⟨?_, ?_⟩
  · simp [LogEntry.save, saveEffects, applyEffect, emptyRedis, assocSet,
      assocGet, assocGetD, LogEntry.init]
  · unfold verify_log_integrity
    simp only [LogEntry.init, LogEntry.to_dict, DateTime.isoformat, pyTruthy,
      Option.getD_some]
    rw [if_pos (by simp [bne_iff_ne, hu, hq, hs, htne, hh]), ht]
    simp [verify_log_hash]

/-- C4 witness: a concrete entry with non-empty fields verifies as valid
right after being saved. -/
theorem verify_valid_after_append_witness :
    (assocGet ((LogEntry.init hmacFc "alice" "SELECT 1" "SUCCESS" "id9" isoT0).save
        emptyRedis).store "id9"
      = some (LogEntry.init hmacFc "alice" "SELECT 1" "SUCCESS" "id9" isoT0).to_dict) ∧
    ((verify_log_integrity hmacFc
        (LogEntry.init hmacFc "alice" "SELECT 1" "SUCCESS" "id9" isoT0).to_dict).valid
      = true) ∧
    ((verify_log_integrity hmacFc
        (LogEntry.init hmacFc "alice" "SELECT 1" "SUCCESS" "id9" isoT0).to_dict).error
      = none) :=
  verify_valid_after_append hmacFc "alice" "SELECT 1" "SUCCESS" "id9" isoT0
    (by decide) (by decide) (by decide) (by decide) (by decide)

/-- C4 (counterexample): an entry with an empty `query` is appended
successfully — it is stored and retrievable by id — yet `verify` on the
stored dict returns `valid = false` with the missing-fields reason, so "for
every entry, verify succeeds right after append" is false. -/
theorem append_succeeds_but_verify_rejects_empty_payload :
    ((LogEntry.get_by_id
        ((LogEntry.init hmacFc "alice" "" "SUCCESS" "id2" isoT0).save emptyRedis)
        "id2").isSome = true) ∧
    ((verify_log_integrity hmacFc
        (LogEntry.init hmacFc "alice" "" "SUCCESS" "id2" isoT0).to_dict).valid
      = false) ∧
    ((verify_log_integrity hmacFc
        (LogEntry.init hmacFc "alice" "" "SUCCESS" "id2" isoT0).to_dict).error
      = some "Missing required fields for verification") := by
  refine ⟨by decide, by decide, by decide⟩

/-- C10 witness: a dict whose `query` is the empty string but whose stored
hash is precisely the digest of those exact field values is still rejected
as missing fields. -/
theorem verify_empty_field_reports_missing_witness :
    verify_log_integrity hmacFc
      { id := some "id1", user_id := some "u", query := some "",
        status := some "s", timestamp := some isoT0,
        hash := some (hmacFc (logData "u" "" "s" isoT0)) } =
      { valid := false, verification_token := none,
        error := some "Missing required fields for verification" } :=
  verify_empty_field_reports_missing hmacFc _ (Or.inr (Or.inl rfl))

/-! ### Association-list lemmas -/

theorem assocGet_set_self {α : Type} (l : List (String × α)) (k : String) (v : α) :
    assocGet (assocSet l k v) k = some v := by
  induction l with
  | nil => simp [assocSet, assocGet]
  | cons p rest ih =>
      obtain ⟨k', v'⟩ := p
      by_cases h : k' == k
      · simp [assocSet, assocGet, h]
      · simp [assocSet, assocGet, h, ih]

theorem assocGet_set_ne {α : Type} (l : List (String × α)) (k k' : String) (v : α)
    (h : k' ≠ k) : assocGet (assocSet l k v) k' = assocGet l k' := by
  have hkk : (k == k') = false := by simpa using fun he => h he.symm
  induction l with
  | nil => simp [assocSet, assocGet, hkk]
  | cons p rest ih =>
      obtain ⟨k'', v''⟩ := p
      by_cases h2 : k'' == k
      · have : (k'' == k') = false := by
          have hk : k'' = k := by simpa using h2
          simpa [hk] using hkk
        simp [assocSet, assocGet, h2, hkk, this]
      · simp [assocSet, assocGet, h2, ih]

/-! ### Characterisation of one `save` -/

theorem take_cons_take {α : Type} (a : α) (l : List α) (n : Nat) (h : n ≠ 0) :
    (a :: l.take n).take n = (a :: l).take n := by
  cases n with
  | zero => exact absurd rfl h
  | succ m =>
      simp [List.take_succ_cons, List.take_take, Nat.min_eq_left (Nat.le_succ m)]

theorem save_components (e : LogEntry) (st : RedisState) :
    (e.save st).store = assocSet st.store e.id e.to_dict ∧
    (e.save st).user_logs
      = assocSet
          (assocSet st.user_logs e.user_id (e.id :: assocGetD st.user_logs e.user_id []))
          e.user_id ((e.id :: assocGetD st.user_logs e.user_id []).take 1000) ∧
    (e.save st).all_logs = (e.id :: st.all_logs).take 1000 ∧
    (e.save st).published = st.published ++ [e.to_dict] := by
  simp [LogEntry.save, saveEffects, applyEffect, assocGet_set_self, assocGetD]

theorem saveAll_append_singleton (es : List LogEntry) (e : LogEntry) :
    saveAll (es ++ [e]) = e.save (saveAll es) := by
  simp [saveAll, List.foldl_append]

theorem saveAll_user_index (es : List LogEntry) (u : String) :
    assocGetD (saveAll es).user_logs u [] = ((idsForUser u es).reverse).take 1000 := by
  induction es using List.reverseRecOn with
  | nil => rfl
  | append_singleton l e ih =>
      rw [saveAll_append_singleton]
      obtain ⟨-, hu, -, -⟩ := save_components e (saveAll l)
      by_cases h : u = e.user_id
      · subst h
        have hids : idsForUser e.user_id (l ++ [e])
            = idsForUser e.user_id l ++ [e.id] := by
          simp [idsForUser, List.filter_append]
        have hl : assocGetD (e.save (saveAll l)).user_logs e.user_id []
            = (e.id :: assocGetD (saveAll l).user_logs e.user_id []).take 1000 := by
          rw [hu]
          unfold assocGetD
          rw [assocGet_set_self]
          rfl
        rw [hl, ih, take_cons_take _ _ 1000 (by decide), hids]
        simp [List.reverse_append]
      · have hne : u ≠ e.user_id := h
        have hfe : (e.user_id == u) = false := by
          simpa using fun he => h he.symm
        have hids : idsForUser u (l ++ [e]) = idsForUser u l := by
          simp [idsForUser, List.filter_append, hfe]
        have hl : assocGetD (e.save (saveAll l)).user_logs u []
            = assocGetD (saveAll l).user_logs u [] := by
          rw [hu]
          unfold assocGetD
          rw [assocGet_set_ne _ _ _ _ hne, assocGet_set_ne _ _ _ _ hne]
        rw [hl, ih, hids]

theorem saveAll_all_logs (es : List LogEntry) :
    (saveAll es).all_logs = ((es.map (fun e => e.id)).reverse).take 1000 := by
  induction es using List.reverseRecOn with
  | nil => rfl
  | append_singleton l e ih =>
      rw [saveAll_append_singleton]
      obtain ⟨-, -, ha, -⟩ := save_components e (saveAll l)
      rw [ha, ih, take_cons_take _ _ 1000 (by decide)]
      simp

theorem lrange_length_le (l : List String) (a b : Int) :
    (lrange l a b).length ≤ l.length := by
  unfold lrange
  dsimp only
  rw [List.length_take]
  refine le_trans (Nat.min_le_right _ _) ?_
  rw [List.length_drop]
  exact Nat.sub_le _ _

theorem get_logs_length_le (st : RedisState) (u : String) (limit offset : Int) :
    (LogEntry.get_logs st (some u) limit offset).length
      ≤ (assocGetD st.user_logs u []).length := by
  unfold LogEntry.get_logs
  dsimp only
  exact le_trans (List.length_filterMap_le _ _) (lrange_length_le _ _ _)

/-- C7: after any sequence of appends from an empty store, each per-subject
index and the global index hold at most 1000 ids; both indexes are exactly
the most recent 1000 ids, most-recent-first; `get_logs` for a subject
returns at most 1000 entries; and once a subject has more than 1000 newer
entries, its oldest id is evicted from that subject's index. -/
theorem retention_bound_holds (es : List LogEntry) (u : String) (limit offset : Int) :
    (assocGetD (saveAll es).user_logs u []).length ≤ 1000 ∧
    ((saveAll es).all_logs).length ≤ 1000 ∧
    ((LogEntry.get_logs (saveAll es) (some u) limit offset).length ≤ 1000) ∧
    (assocGetD (saveAll es).user_logs u [] = ((idsForUser u es).reverse).take 1000) ∧
    ((saveAll es).all_logs = ((es.map (fun e => e.id)).reverse).take 1000) ∧
    (∀ o rest, idsForUser u es = o :: rest → (o ∈ rest → False) →
        1000 ≤ rest.length →
        o ∈ assocGetD (saveAll es).user_logs u [] → False) := by
  have hu := saveAll_user_index es u
  have ha := saveAll_all_logs es
  have hulen : (assocGetD (saveAll es).user_logs u []).length ≤ 1000 := by
    rw [hu]; exact List.length_take_le _ _
  refine ⟨hulen, by rw [ha]; exact List.length_take_le _ _,
    le_trans (get_logs_length_le _ _ _ _) hulen, hu, ha, ?_⟩
  intro o rest h1 h2 h3 hmem
  rw [hu, h1, List.reverse_cons,
    List.take_append_of_le_length (by simpa using h3)] at hmem
  exact h2 (by simpa using List.mem_of_mem_take hmem)

/-! ### Order of effects inside `save` -/

theorem get_by_id_hset (st : RedisState) (i0 : String) (d : LogDict) (j : String) :
    LogEntry.get_by_id { st with store := assocSet st.store i0 d } j
      = if j = i0 then LogEntry.from_dict d else LogEntry.get_by_id st j := by
  unfold LogEntry.get_by_id
  by_cases h : j = i0
  · subst h
    rw [assocGet_set_self]
    simp
  · rw [assocGet_set_ne _ _ _ _ h, if_neg h]

theorem inv_hset (st : RedisState) (i0 : String) (d : LogDict)
    (hd : (LogEntry.from_dict d).isSome = true)
    (hinv : indexedImpliesStored st) :
    indexedImpliesStored (applyEffect st (SaveEffect.hset i0 d)) := by
  obtain ⟨hU, hA⟩ := hinv
  constructor
  · intro u' j hj
    simp only [applyEffect] at hj ⊢
    rw [get_by_id_hset]
    by_cases hje : j = i0
    · simpa [hje] using hd
    · rw [if_neg hje]
      exact hU u' j hj
  · intro j hj
    simp only [applyEffect] at hj ⊢
    rw [get_by_id_hset]
    by_cases hje : j = i0
    · simpa [hje] using hd
    · rw [if_neg hje]
      exact hA j hj

theorem inv_lpushUser (st : RedisState) (u i : String)
    (hstore : (LogEntry.get_by_id st i).isSome = true)
    (hinv : indexedImpliesStored st) :
    indexedImpliesStored (applyEffect st (SaveEffect.lpushUser u i)) := by
  obtain ⟨hU, hA⟩ := hinv
  constructor
  · intro u' j hj
    simp only [applyEffect] at hj ⊢
    by_cases hu' : u' = u
    · subst hu'
      rw [assocGetD, assocGet_set_self, Option.getD_some] at hj
      rcases List.mem_cons.mp hj with hj | hj
      · subst hj; exact hstore
      · exact hU u' j hj
    · rw [assocGetD, assocGet_set_ne _ _ _ _ hu'] at hj
      exact hU u' j hj
  · intro j hj
    exact hA j hj

theorem inv_lpushAll (st : RedisState) (i : String)
    (hstore : (LogEntry.get_by_id st i).isSome = true)
    (hinv : indexedImpliesStored st) :
    indexedImpliesStored (applyEffect st (SaveEffect.lpushAll i)) := by
  obtain ⟨hU, hA⟩ := hinv
  constructor
  · intro u' j hj
    exact hU u' j hj
  · intro j hj
    simp only [applyEffect] at hj ⊢
    rcases List.mem_cons.mp hj with hj | hj
    · subst hj; exact hstore
    · exact hA j hj

theorem inv_publish (st : RedisState) (d : LogDict)
    (hinv : indexedImpliesStored st) :
    indexedImpliesStored (applyEffect st (SaveEffect.publish d)) := hinv

theorem inv_ltrimUser (st : RedisState) (u : String)
    (hinv : indexedImpliesStored st) :
    indexedImpliesStored (applyEffect st (SaveEffect.ltrimUser u)) := by
  obtain ⟨hU, hA⟩ := hinv
  cases hmg : assocGet st.user_logs u with
  | none =>
      simp only [applyEffect, hmg]
      exact ⟨hU, hA⟩
  | some l =>
      simp only [applyEffect, hmg]
      constructor
      · intro u' j hj
        by_cases hu' : u' = u
        · subst hu'
          rw [assocGetD, assocGet_set_self, Option.getD_some] at hj
          have hj' : j ∈ l := List.mem_of_mem_take hj
          exact hU u' j (by rw [assocGetD, hmg, Option.getD_some]; exact hj')
        · rw [assocGetD, assocGet_set_ne _ _ _ _ hu'] at hj
          exact hU u' j hj
      · intro j hj
        exact hA j hj

theorem inv_ltrimAll (st : RedisState)
    (hinv : indexedImpliesStored st) :
    indexedImpliesStored (applyEffect st SaveEffect.ltrimAll) := by
  obtain ⟨hU, hA⟩ := hinv
  constructor
  · intro u' j hj
    exact hU u' j hj
  · intro j hj
    simp only [applyEffect] at hj ⊢
    exact hA j (List.mem_of_mem_take hj)

/-- C8: `save` issues its Redis commands in source order — store the record
under its id first, then push the id onto the per-user and global indexes,
then publish, then trim — and therefore after every prefix of those
commands a reader that finds an id in an index can retrieve the record by
id (provided that held of the starting state). -/
theorem save_stores_before_indexing_before_publish (st : RedisState) (e : LogEntry)
    (p q : List SaveEffect)
    (hwf : (LogEntry.from_dict e.to_dict).isSome = true)
    (hinv : indexedImpliesStored st)
    (hpq : p ++ q = saveEffects e) :
    saveEffects e =
      [SaveEffect.hset e.id e.to_dict, SaveEffect.lpushUser e.user_id e.id,
       SaveEffect.lpushAll e.id, SaveEffect.publish e.to_dict,
       SaveEffect.ltrimUser e.user_id, SaveEffect.ltrimAll] ∧
    indexedImpliesStored (p.foldl applyEffect st) := by
  refine ⟨rfl, ?_⟩
  have h1 : indexedImpliesStored (applyEffect st (SaveEffect.hset e.id e.to_dict)) :=
    inv_hset st e.id e.to_dict hwf hinv
  have hid1 :
      (LogEntry.get_by_id (applyEffect st (SaveEffect.hset e.id e.to_dict)) e.id).isSome
        = true := by
    simp only [applyEffect]
    rw [get_by_id_hset, if_pos rfl]
    exact hwf
  have h2 := inv_lpushUser _ e.user_id e.id hid1 h1
  have hid2 :
      (LogEntry.get_by_id
        (applyEffect (applyEffect st (SaveEffect.hset e.id e.to_dict))
          (SaveEffect.lpushUser e.user_id e.id)) e.id).isSome = true := hid1
  have h3 := inv_lpushAll _ e.id hid2 h2
  have h4 := inv_publish _ e.to_dict h3
  have h5 := inv_ltrimUser _ e.user_id h4
  have h6 := inv_ltrimAll _ h5
  rcases p with - | ⟨a1, p⟩
  · exact hinv
  rw [List.cons_append] at hpq
  injection hpq with ha hpq
  subst ha
  rcases p with - | ⟨a2, p⟩
  · exact h1
  rw [List.cons_append] at hpq
  injection hpq with ha hpq
  subst ha
  rcases p with - | ⟨a3, p⟩
  · exact h2
  rw [List.cons_append] at hpq
  injection hpq with ha hpq
  subst ha
  rcases p with - | ⟨a4, p⟩
  · exact h3
  rw [List.cons_append] at hpq
  injection hpq with ha hpq
  subst ha
  rcases p with - | ⟨a5, p⟩
  · exact h4
  rw [List.cons_append] at hpq
  injection hpq with ha hpq
  subst ha
  rcases p with - | ⟨a6, p⟩
  · exact h5
  rw [List.cons_append] at hpq
  injection hpq with ha hpq
  subst ha
  rcases p with - | ⟨a7, p⟩
  · exact h6
  rw [List.cons_append] at hpq
  exact absurd hpq (by simp)

/-- C8 witness: starting from the empty store, after the first two commands
of saving a concrete entry (store-by-id, then per-user index push) the
index/record consistency holds. -/
theorem save_stores_before_indexing_before_publish_witness :
    (saveEffects entryA =
      [SaveEffect.hset entryA.id entryA.to_dict,
       SaveEffect.lpushUser entryA.user_id entryA.id,
       SaveEffect.lpushAll entryA.id, SaveEffect.publish entryA.to_dict,
       SaveEffect.ltrimUser entryA.user_id, SaveEffect.ltrimAll]) ∧
    indexedImpliesStored
      (([SaveEffect.hset entryA.id entryA.to_dict,
         SaveEffect.lpushUser entryA.user_id entryA.id]).foldl applyEffect emptyRedis) :=
  save_stores_before_indexing_before_publish emptyRedis entryA
    [SaveEffect.hset entryA.id entryA.to_dict,
     SaveEffect.lpushUser entryA.user_id entryA.id]
    [SaveEffect.lpushAll entryA.id, SaveEffect.publish entryA.to_dict,
     SaveEffect.ltrimUser entryA.user_id, SaveEffect.ltrimAll]
    (by decide)
    ⟨(by intro u i h; simp [assocGetD, assocGet, emptyRedis] at h),
     (by intro i h; simp [emptyRedis] at h)⟩
    rfl

end LogApi
